import Mathlib

/-!
Verification development for the Wall Topology Engine of the Bricks-4-two
repository (src/wall.js, most complete iteration).  The JavaScript classes
`Brick` and `Wall` are shallowly embedded: the brick registry (a JS `Map`
keyed by the string formed from the column and row, iterated in insertion
order) becomes an insertion-ordered list of brick records, machine numbers
become `Int`/`Nat`/`Rat`, and the `Math.random()` draws used by the repair
search are abstracted into an oracle argument giving the power-up kind of
each auto-added brick.
-/

namespace Bricks

/-- Striking side of a ball: the string values used by the game. -/
inductive Side
  | top
  | bottom
deriving DecidableEq, Repr

/-- The non-null brick kinds appearing in wall.js: the four power-up kinds
plus the fixed demo/activation kind.  A JS `null` kind is `Option.none`. -/
inductive BrickType
  | extraBall
  | removeBall
  | enlargePaddle
  | shrinkPaddle
  | demo
deriving DecidableEq, Repr

/-- A registry coordinate: (rowCoordinate, columnCoordinate). -/
abbrev Coord := Int × Int

/-- Embedding of the JS `Brick` record.  `width`/`height` are the values the
constructor stores; the visual position is derived on demand (the JS code
recomputes it from the coordinate via `updateVisualPosition`). -/
structure Brick where
  row : Int
  col : Int
  width : ℚ
  height : ℚ
  type : Option BrickType
  isOrphan : Bool
  inertFromSide : Option Side
deriving DecidableEq, Repr

/-- The registry key of a brick (the JS map key encodes exactly the pair). -/
def Brick.coord (b : Brick) : Coord := (b.row, b.col)

/-- Embedding of the mutable `Wall` state used by the engine: the
insertion-ordered registry, the master boundary columns, the brick width
chosen at initialization, the canvas height (used by the inert-edge rule)
and the pending-impact queue (a JS `Map` from key to side). -/
structure Wall where
  bricks : List Brick
  masterMinCol : Int
  masterMaxCol : Int
  brickWidth : ℚ
  canvasH : Nat
  pendingImpacts : List (Coord × Side)
  lastHitBrickType : Option BrickType
deriving DecidableEq, Repr

/-- The fixed brick height (`this.brickHeight = 25`). -/
def brickHeight : ℚ := 25

/-- Translation of `Wall.getMasonryNeighbors(row, col)`: the side neighbors
followed by the parity-dependent vertical neighbors. -/
def getMasonryNeighbors (row col : Int) : List Coord :=
  let parity := row.natAbs % 2
  let pts : List Coord := [(row, col - 1), (row, col + 1)]
  if parity = 0 then
    pts ++ [(row - 1, col), (row - 1, col - 1), (row + 1, col), (row + 1, col - 1)]
  else
    pts ++ [(row - 1, col), (row - 1, col + 1), (row + 1, col), (row + 1, col + 1)]

/-- `activeBrickMap.has` for a coordinate key. -/
def Wall.hasKey (w : Wall) (row col : Int) : Bool :=
  w.bricks.any fun b => decide (b.row = row) && decide (b.col = col)

/-- `activeBrickMap.get` for a coordinate key (first entry; keys are unique
in a JS map). -/
def Wall.getBrick (w : Wall) (row col : Int) : Option Brick :=
  w.bricks.find? fun b => decide (b.row = row) && decide (b.col = col)

/-- `activeBrickMap.delete` for a coordinate key. -/
def Wall.deleteKey (w : Wall) (row col : Int) : Wall :=
  { w with bricks := w.bricks.filter fun b => !(decide (b.row = row) && decide (b.col = col)) }

/-- The coordinates present in the registry, in insertion order. -/
def brickKeys (w : Wall) : List Coord := w.bricks.map Brick.coord

/-- One expansion step of the flood fill inside `analyzeTopology`: add every
neighbor of an already-visited coordinate that is present in the registry
and not visited yet. -/
def closureStep (keys visited : List Coord) : List Coord :=
  visited ++ ((visited.flatMap fun p => getMasonryNeighbors p.1 p.2).filter
    fun q => decide (q ∈ keys) && decide (q ∉ visited))

/-- Iterated expansion of the flood fill. -/
def closureIter : Nat → List Coord → List Coord → List Coord
  | 0, _, visited => visited
  | n + 1, keys, visited => closureIter n keys (closureStep keys visited)

/-- The set of coordinates the breadth-first traversal of `analyzeTopology`
visits: iterating expansion as many times as there are registry keys reaches
the closure (the traversal only ever visits registry keys). -/
def reachableFrom (keys start : List Coord) : List Coord :=
  closureIter keys.length keys start

/-- The seed bricks of the traversal in `analyzeTopology`: every brick
whose column is at most `masterMinCol`. -/
def nearSeeds (w : Wall) : List Coord :=
  (w.bricks.filter fun b => decide (b.col ≤ w.masterMinCol)).map Brick.coord

/-- The visited set computed by one `analyzeTopology` traversal. -/
def wallVisited (w : Wall) : List Coord :=
  reachableFrom (brickKeys w) (nearSeeds w)

/-- Translation of `Wall.analyzeTopology`.  The source marks every brick
orphaned, seeds the search with every brick whose column is at most
`masterMinCol`, clears the orphan flag of every visited brick, and returns
whether some visited brick has column at least `masterMaxCol`.  The two JS
early returns (empty registry, no seed brick) coincide with the general
branch because the closure of an empty seed set is empty. -/
def Wall.analyzeTopology (w : Wall) : Wall × Bool :=
  let visited := wallVisited w
  ({ w with bricks := w.bricks.map fun b =>
      { b with isOrphan := decide (b.coord ∉ visited) } },
   w.bricks.any fun b => decide (w.masterMaxCol ≤ b.col) && decide (b.coord ∈ visited))

/-- The fixed near row limit (`this.topLimit = 4`). -/
def topLimitVal : Int := 4

/-- The far row limit computed from the canvas height
(`Math.floor(clientHeight / brickHeight) - 2`). -/
def Wall.bottomLimit (w : Wall) : Int := ((w.canvasH / 25 : Nat) : Int) - 2

/-- Translation of `Wall.updateInertFlags`. -/
def Wall.updateInertFlags (w : Wall) : Wall :=
  { w with bricks := w.bricks.map fun b =>
      if b.row ≤ topLimitVal then { b with inertFromSide := some Side.bottom }
      else if w.bottomLimit ≤ b.row then { b with inertFromSide := some Side.top }
      else { b with inertFromSide := none } }

/-- Translation of `Wall.addBrickAt(row, col, type)`: no-op on an occupied
key, otherwise append a fresh brick and refresh the inert flags. -/
def Wall.addBrickAt (w : Wall) (row col : Int) (t : Option BrickType) : Wall × Bool :=
  if w.hasKey row col then (w, false)
  else
    (Wall.updateInertFlags
      { w with bricks := w.bricks ++
          [{ row := row, col := col, width := w.brickWidth, height := brickHeight,
             type := t, isOrphan := false, inertFromSide := none }] },
     true)

/-- The row offset repairs grow toward (`ballSide === 'top' ? 1 : -1`). -/
def sideDelta (s : Side) : Int := if s = Side.top then 1 else -1

/-- The prioritized repair candidate list of `processWallImpact`: the
neighbors one row in the push direction from the removed coordinate, then
same-row left, then same-row right. -/
def repairCandidates (hitR hitC delta : Int) : List Coord :=
  ((getMasonryNeighbors hitR hitC).filter fun p => decide (p.1 = hitR + delta)) ++
    [(hitR, hitC - 1), (hitR, hitC + 1)]

/-- The individual trial pass of the repair search (pass A in the source):
skip occupied candidates, tentatively add a brick whose kind comes from the
random oracle, re-run the analyzer, stop on success and remove the tentative
brick on failure.  Returns the wall, whether connectivity was restored, and
the next oracle index. -/
def individualPass (ρ : Nat → Option BrickType) :
    List Coord → Wall → Nat → Wall × Bool × Nat
  | [], w, k => (w, false, k)
  | (cr, cc) :: rest, w, k =>
    if w.hasKey cr cc then individualPass ρ rest w k
    else
      let w1 := (w.addBrickAt cr cc (ρ k)).1
      let a := w1.analyzeTopology
      if a.2 then (a.1, true, k + 1)
      else individualPass ρ rest (a.1.deleteKey cr cc) (k + 1)

/-- The collective fallback pass of the repair search (pass B in the
source): add each candidate permanently (a random kind is drawn even for an
occupied candidate, where `addBrickAt` is a no-op), stopping as soon as the
analyzer reports connected. -/
def collectivePass (ρ : Nat → Option BrickType) :
    List Coord → Wall → Nat → Wall × Bool × Nat
  | [], w, k => (w, false, k)
  | (cr, cc) :: rest, w, k =>
    let w1 := (w.addBrickAt cr cc (ρ k)).1
    let a := w1.analyzeTopology
    if a.2 then (a.1, true, k + 1)
    else collectivePass ρ rest a.1 (k + 1)

/-- Clearing the kind of the struck brick in the inert-absorption branch:
the source checks the five concrete kind strings and resets the field to
null.  The struck object is the registry entry itself, so the update is
applied to the brick stored at the struck coordinate. -/
def clearSpecialType (t : Option BrickType) : Option BrickType :=
  if t = some BrickType.extraBall ∨ t = some BrickType.removeBall ∨
      t = some BrickType.enlargePaddle ∨ t = some BrickType.shrinkPaddle ∨
      t = some BrickType.demo then none
  else t

/-- Translation of `Wall.processWallImpact(hitBrick, ballSide)`. -/
def Wall.processWallImpact (w : Wall) (hitBrick : Brick) (ballSide : Side)
    (ρ : Nat → Option BrickType) : Wall :=
  let hitR := hitBrick.row
  let hitC := hitBrick.col
  let delta := sideDelta ballSide
  let w0 := { w with lastHitBrickType := hitBrick.type }
  if hitBrick.inertFromSide = some ballSide then
    { w0 with bricks := w0.bricks.map fun b =>
        if b.row = hitR ∧ b.col = hitC then { b with type := clearSpecialType b.type }
        else b }
  else
    let w1 := w0.deleteKey hitR hitC
    let a1 := w1.analyzeTopology
    let w2 :=
      if a1.2 then a1.1
      else
        let candidates := repairCandidates hitR hitC delta
        let r1 := individualPass ρ candidates a1.1 0
        if r1.2.1 then r1.1
        else (collectivePass ρ candidates r1.1 r1.2.2).1
    w2.updateInertFlags

/-- The loop body of `resolvePendingImpacts`: each queue entry is looked up
in the registry and resolved when present; an absent brick is skipped.  The
oracle family gives every queue entry its own stream of repair draws. -/
def resolveAux (ρs : Nat → Nat → Option BrickType) :
    List (Coord × Side) → Nat → Wall → Wall
  | [], _, w => w
  | ((r, c), side) :: rest, i, w =>
    match w.getBrick r c with
    | some b => resolveAux ρs rest (i + 1) (w.processWallImpact b side (ρs i))
    | none => resolveAux ρs rest (i + 1) w

/-- Translation of `Wall.resolvePendingImpacts`: drain the queue in
insertion order, then clear it. -/
def Wall.resolvePendingImpacts (w : Wall) (ρs : Nat → Nat → Option BrickType) : Wall :=
  { resolveAux ρs w.pendingImpacts 0 w with pendingImpacts := [] }

/-- JS `Map.set` on the pending-impact queue: overwrite the value of an
existing key in place, otherwise append the entry. -/
def setPending (l : List (Coord × Side)) (key : Coord) (s : Side) : List (Coord × Side) :=
  if l.any fun e => decide (e.1 = key) then
    l.map fun e => if e.1 = key then (key, s) else e
  else l ++ [(key, s)]

/-- Lookup of the side staged for a coordinate. -/
def lookupPending (l : List (Coord × Side)) (key : Coord) : Option Side :=
  (l.find? fun e => decide (e.1 = key)).map Prod.snd

/-- Embedding of the ball state read and written by `checkCollision`. -/
structure Ball where
  x : ℚ
  y : ℚ
  vx : ℚ
  vy : ℚ
  radius : ℚ
  side : Side
deriving DecidableEq, Repr

/-- JS `Math.round` (round half toward positive infinity). -/
def jsRound (q : ℚ) : Int := ⌊q + 1 / 2⌋

/-- The visual x position of a brick (`updateVisualPosition`): the column
offset plus the half-width stagger on odd rows plus half a brick. -/
def canvasX (b : Brick) : ℚ :=
  b.col * b.width + (if b.row.natAbs % 2 = 1 then b.width / 2 else 0) + b.width / 2

/-- The visual y position of a brick (`updateVisualPosition`). -/
def canvasY (b : Brick) : ℚ := b.row * b.height

/-- The bounce axis chosen by `checkCollision`. -/
inductive Axis
  | x
  | y
deriving DecidableEq, Repr

/-- The contact data `checkCollision` keeps for the best candidate. -/
structure Contact where
  brick : Brick
  dx : ℚ
  dy : ℚ
  overlapX : ℚ
  overlapY : ℚ
  pen : ℚ
  axis : Axis
deriving DecidableEq, Repr

/-- The 3x3 spatial window scanned by `checkCollision`, in scan order: rows
around the estimated row, and for each row the three columns around the
estimated column obtained by inverting the stagger. -/
def scanCoords (w : Wall) (ball : Ball) : List Coord :=
  let estRow := jsRound (ball.y / brickHeight)
  ([-1, 0, 1] : List Int).flatMap fun dr =>
    let r := estRow + dr
    let xShift : ℚ := if r.natAbs % 2 = 1 then w.brickWidth / 2 else 0
    let estCol := jsRound ((ball.x - xShift) / w.brickWidth)
    [(r, estCol - 1), (r, estCol), (r, estCol + 1)]

/-- The per-candidate test of `checkCollision`: overlap on both axes, the
moving-toward test, and the bounce-axis resolution, returning the contact
data for a qualifying brick. -/
def considerBrick (ball : Ball) (b : Brick) : Option Contact :=
  let dx := ball.x - canvasX b
  let dy := ball.y - canvasY b
  let sX := b.width / 2 + ball.radius + 1
  let sY := b.height / 2 + ball.radius + 1
  if |dx| ≤ sX ∧ |dy| ≤ sY then
    let towardsX := (ball.vx > 0 ∧ dx < 0) ∨ (ball.vx < 0 ∧ dx > 0)
    let towardsY := (ball.vy > 0 ∧ dy < 0) ∨ (ball.vy < 0 ∧ dy > 0)
    if ¬towardsX ∧ ¬towardsY then none
    else
      let overlapX := sX - |dx|
      let overlapY := sY - |dy|
      let pen := min overlapX overlapY
      let axis0 := if overlapX < overlapY then Axis.x else Axis.y
      let axis1 := if axis0 = Axis.x ∧ ¬towardsX then Axis.y else axis0
      let axis2 := if axis1 = Axis.y ∧ ¬towardsY then Axis.x else axis1
      if axis2 = Axis.x ∧ ¬towardsX then none
      else if axis2 = Axis.y ∧ ¬towardsY then none
      else some { brick := b, dx := dx, dy := dy, overlapX := overlapX,
                  overlapY := overlapY, pen := pen, axis := axis2 }
  else none

/-- The candidate evaluation at a scanned coordinate: absent coordinates
yield nothing. -/
def considerAt (w : Wall) (ball : Ball) (p : Coord) : Option Contact :=
  match w.getBrick p.1 p.2 with
  | none => none
  | some b => considerBrick ball b

/-- The qualifying contacts of the scan, in scan order. -/
def scanContacts (w : Wall) (ball : Ball) : List Contact :=
  (scanCoords w ball).filterMap (considerAt w ball)

/-- The running-minimum selection of `checkCollision`: starting from
`minPenetration = Infinity`, a candidate replaces the current best exactly
when its penetration is strictly smaller. -/
def pickBest : List Contact → Option Contact
  | [] => none
  | c :: rest =>
    match pickBest rest with
    | none => some c
    | some d => if d.pen < c.pen then some d else some c

/-- Translation of `Wall.checkCollision(ball)`: select the best contact of
the 3x3 window, stage the impact on the pending queue, record the struck
kind, and reflect and eject the ball along the chosen axis. -/
def Wall.checkCollision (w : Wall) (ball : Ball) : Wall × Ball × Bool :=
  match pickBest (scanContacts w ball) with
  | none => (w, ball, false)
  | some c =>
    let b := c.brick
    let w1 := { w with
      pendingImpacts := setPending w.pendingImpacts (b.row, b.col) ball.side,
      lastHitBrickType := b.type }
    let ball1 :=
      if c.axis = Axis.x then
        let ejectX := b.width / 2 + ball.radius + 2
        { ball with vx := -ball.vx,
                    x := canvasX b + (if c.dx > 0 then ejectX else -ejectX) }
      else
        let ejectY := b.height / 2 + ball.radius + 2
        { ball with vy := -ball.vy,
                    y := canvasY b + (if -ball.vy > 0 then ejectY else -ejectY) }
    (w1, ball1, true)

/-- Reachability through the masonry adjacency, restricted to coordinates
present in the registry: the relation the breadth-first traversal of
`analyzeTopology` computes. -/
inductive Reach (keys start : List Coord) : Coord → Prop
  | base {p : Coord} : p ∈ start → Reach keys start p
  | step {p q : Coord} : Reach keys start p → q ∈ getMasonryNeighbors p.1 p.2 →
      q ∈ keys → Reach keys start q

/-- The number of registry keys the flood fill has not visited yet: the
termination measure of the traversal. -/
def missingCount (keys visited : List Coord) : Nat :=
  (keys.toFinset \ visited.toFinset).card

/-- The 6-neighbor masonry adjacency between coordinates. -/
def AdjacentCoord (p q : Coord) : Prop := q ∈ getMasonryNeighbors p.1 p.2

/-- Stated from the spec: a coordinate lies on some path of adjacent present
bricks that starts at a brick at or before the near boundary column. -/
def OnNearPath (keys : List Coord) (minC : Int) (x : Coord) : Prop :=
  ∃ l : List Coord, List.Chain' AdjacentCoord l ∧ (∀ q ∈ l, q ∈ keys) ∧
    (∃ s ∈ l.head?, s.2 ≤ minC) ∧ x ∈ l

/-- Stated from the claim: a coordinate lies on some path of adjacent
present bricks connecting a brick at or before the near boundary column to
a brick at or beyond the far boundary column. -/
def OnConnectingPath (keys : List Coord) (minC maxC : Int) (x : Coord) : Prop :=
  ∃ l : List Coord, List.Chain' AdjacentCoord l ∧ (∀ q ∈ l, q ∈ keys) ∧
    (∃ s ∈ l.head?, s.2 ≤ minC) ∧ (∃ t ∈ l.getLast?, maxC ≤ t.2) ∧ x ∈ l

/-- The connectivity verdict of `analyzeTopology` as a function of the key
list and the boundary columns alone (a derived characterization used to
relate analyzer runs on walls with equal coordinate contents). -/
def analyzeKeysVerdict (keys : List Coord) (minC maxC : Int) : Bool :=
  keys.any fun p => decide (maxC ≤ p.2) &&
    decide (p ∈ reachableFrom keys (keys.filter fun q => decide (q.2 ≤ minC)))

/-- A plain brick record as the game creates them at initialization. -/
def mkBrick (r c : Int) : Brick :=
  { row := r, col := c, width := 60, height := 25, type := none,
    isOrphan := false, inertFromSide := none }

/-- A one-brick wall whose far boundary is unreachable: the single brick at
(0, 0) sits at the near boundary while `masterMaxCol = 5` is vacant. -/
def wallOneBrick : Wall :=
  { bricks := [mkBrick 0 0], masterMinCol := 0, masterMaxCol := 5,
    brickWidth := 60, canvasH := 600, pendingImpacts := [], lastHitBrickType := none }

/-- A one-brick wall at row 5 (inert to neither side for a 600px canvas)
whose far boundary `masterMaxCol = 3` cannot be restored by any repair. -/
def wallLoneMid : Wall :=
  { bricks := [mkBrick 5 0], masterMinCol := 0, masterMaxCol := 3,
    brickWidth := 60, canvasH := 600, pendingImpacts := [], lastHitBrickType := none }

/-- A demo brick at the top edge, inert against hits from below. -/
def inertDemoBrick : Brick :=
  { row := 2, col := 0, width := 60, height := 25, type := some BrickType.demo,
    isOrphan := false, inertFromSide := some Side.bottom }

/-- A wall holding only the inert demo brick. -/
def wallInertDemo : Wall :=
  { bricks := [inertDemoBrick], masterMinCol := 0, masterMaxCol := 0,
    brickWidth := 60, canvasH := 600, pendingImpacts := [], lastHitBrickType := none }

/-- A three-brick wall with a one-brick vertical neck: removing (6, 1)
severs it and the first mortar candidate (7, 1) alone restores
connectivity. -/
def wallNeck : Wall :=
  { bricks := [mkBrick 7 0, mkBrick 6 1, mkBrick 6 2], masterMinCol := 0, masterMaxCol := 2,
    brickWidth := 60, canvasH := 600, pendingImpacts := [], lastHitBrickType := none }

/-- A wall whose pending queue holds one stale coordinate (its brick is
gone). -/
def wallStalePending : Wall :=
  { bricks := [], masterMinCol := 0, masterMaxCol := 0, brickWidth := 60,
    canvasH := 600, pendingImpacts := [(((0 : Int), (0 : Int)), Side.top)],
    lastHitBrickType := none }

/-- The near brick of the collision counterexample. -/
def brickNear : Brick := mkBrick 0 0

/-- The far brick of the collision counterexample. -/
def brickFar : Brick := mkBrick 0 1

/-- A two-brick wall probed by the collision counterexample. -/
def wallTwo : Wall :=
  { bricks := [brickNear, brickFar], masterMinCol := 0, masterMaxCol := 1,
    brickWidth := 60, canvasH := 600, pendingImpacts := [], lastHitBrickType := none }

/-- A ball overlapping both bricks of `wallTwo`, moving down-right. -/
def ballProbe : Ball := { x := 55, y := -5, vx := 1, vy := 1, radius := 8, side := Side.top }

/-- The qualifying contact of `ballProbe` against `brickNear`: penetration
depth 14 (the deeper of the two contacts). -/
def contactNear : Contact :=
  { brick := brickNear, dx := 25, dy := -5, overlapX := 14, overlapY := 33 / 2,
    pen := 14, axis := Axis.y }

/-- The qualifying contact of `ballProbe` against `brickFar`: penetration
depth 4 (the shallower of the two contacts). -/
def contactFar : Contact :=
  { brick := brickFar, dx := -35, dy := -5, overlapX := 4, overlapY := 33 / 2,
    pen := 4, axis := Axis.x }

theorem mem_closureStep {keys visited : List Coord} {q : Coord} :
    q ∈ closureStep keys visited ↔
      q ∈ visited ∨ (q ∈ keys ∧ q ∉ visited ∧
        ∃ p ∈ visited, q ∈ getMasonryNeighbors p.1 p.2) := by
  simp only [closureStep, List.mem_append, List.mem_filter, List.mem_flatMap,
    Bool.and_eq_true, decide_eq_true_eq]
  tauto

theorem subset_closureStep {keys visited : List Coord} :
    visited ⊆ closureStep keys visited :=
  fun _ h => List.mem_append.2 (Or.inl h)

theorem subset_closureIter {keys : List Coord} :
    ∀ (n : Nat) (visited : List Coord), visited ⊆ closureIter n keys visited := by
  intro n
  induction n with
  | zero => intro v; exact fun _ h => h
  | succ n ih =>
    intro v x hx
    exact ih (closureStep keys v) (subset_closureStep hx)

theorem closureStep_congr {keys v v2 : List Coord} (h : ∀ x, x ∈ v ↔ x ∈ v2) :
    ∀ x, x ∈ closureStep keys v ↔ x ∈ closureStep keys v2 := by
  intro x
  rw [mem_closureStep, mem_closureStep]
  constructor
  · rintro (hx | ⟨hk, hnv, p, hp, hnb⟩)
    · exact Or.inl ((h x).1 hx)
    · exact Or.inr ⟨hk, fun c => hnv ((h x).2 c), p, (h p).1 hp, hnb⟩
  · rintro (hx | ⟨hk, hnv, p, hp, hnb⟩)
    · exact Or.inl ((h x).2 hx)
    · exact Or.inr ⟨hk, fun c => hnv ((h x).1 c), p, (h p).2 hp, hnb⟩

theorem closureIter_congr {keys : List Coord} :
    ∀ (n : Nat) (v v2 : List Coord), (∀ x, x ∈ v ↔ x ∈ v2) →
      ∀ x, x ∈ closureIter n keys v ↔ x ∈ closureIter n keys v2 := by
  intro n
  induction n with
  | zero => intro v v2 h x; exact h x
  | succ n ih =>
    intro v v2 h x
    exact ih (closureStep keys v) (closureStep keys v2) (closureStep_congr h) x

theorem closureIter_fix {keys v : List Coord}
    (h : ∀ x, x ∈ closureStep keys v → x ∈ v) :
    ∀ (n : Nat) (x : Coord), x ∈ closureIter n keys v ↔ x ∈ v := by
  intro n
  induction n with
  | zero => intro x; exact Iff.rfl
  | succ n ih =>
    intro x
    have hc : ∀ y, y ∈ closureStep keys v ↔ y ∈ v :=
      fun y => ⟨h y, fun hy => subset_closureStep hy⟩
    calc x ∈ closureIter n keys (closureStep keys v)
        ↔ x ∈ closureIter n keys v := closureIter_congr n _ _ hc x
      _ ↔ x ∈ v := ih x

theorem missingCount_lt {keys v : List Coord} {x : Coord}
    (hx : x ∈ closureStep keys v) (hnx : x ∉ v) :
    missingCount keys (closureStep keys v) < missingCount keys v := by
  have hxk : x ∈ keys := by
    rcases mem_closureStep.1 hx with h | ⟨hk, _, _⟩
    · exact absurd h hnx
    · exact hk
  apply Finset.card_lt_card
  constructor
  · intro a ha
    rcases Finset.mem_sdiff.1 ha with ⟨hak, hac⟩
    refine Finset.mem_sdiff.2 ⟨hak, fun hav => hac ?_⟩
    exact List.mem_toFinset.2 (subset_closureStep (List.mem_toFinset.1 hav))
  · intro hsub
    have : x ∈ keys.toFinset \ v.toFinset :=
      Finset.mem_sdiff.2 ⟨List.mem_toFinset.2 hxk, fun c => hnx (List.mem_toFinset.1 c)⟩
    have := Finset.mem_sdiff.1 (hsub this)
    exact this.2 (List.mem_toFinset.2 hx)

theorem closureIter_stable {keys : List Coord} :
    ∀ (n : Nat) (v : List Coord), missingCount keys v ≤ n →
      ∀ x, x ∈ closureStep keys (closureIter n keys v) → x ∈ closureIter n keys v := by
  intro n
  induction n with
  | zero =>
    intro v hm x hx
    have hempty : keys.toFinset \ v.toFinset = ∅ :=
      Finset.card_eq_zero.1 (Nat.le_zero.1 hm)
    have hkv : ∀ a, a ∈ keys → a ∈ v := by
      intro a hak
      by_contra hav
      have : a ∈ keys.toFinset \ v.toFinset :=
        Finset.mem_sdiff.2 ⟨List.mem_toFinset.2 hak, fun c => hav (List.mem_toFinset.1 c)⟩
      simp [hempty] at this
    rcases mem_closureStep.1 hx with h | ⟨hk, hnv, _⟩
    · exact h
    · exact absurd (hkv x hk) hnv
  | succ n ih =>
    intro v hm x hx
    by_cases hf : ∀ y, y ∈ closureStep keys v → y ∈ v
    · have hfix := closureIter_fix hf
      have hc : ∀ y, y ∈ closureIter (n + 1) keys v ↔ y ∈ v := hfix (n + 1)
      have hx2 : x ∈ closureStep keys v := (closureStep_congr hc x).1 hx
      exact (hc x).2 (hf x hx2)
    · push_neg at hf
      rcases hf with ⟨y, hy, hny⟩
      have hlt := missingCount_lt hy hny
      exact ih (closureStep keys v) (by omega) x hx

theorem reach_of_mem_closureIter {keys start : List Coord} :
    ∀ (n : Nat) (v : List Coord), (∀ q ∈ v, Reach keys start q) →
      ∀ q ∈ closureIter n keys v, Reach keys start q := by
  intro n
  induction n with
  | zero => intro v hv q hq; exact hv q hq
  | succ n ih =>
    intro v hv q hq
    refine ih (closureStep keys v) ?_ q hq
    intro z hz
    rcases mem_closureStep.1 hz with h | ⟨hk, _, p, hp, hnb⟩
    · exact hv z h
    · exact Reach.step (hv p hp) hnb hk

theorem missingCount_le_length (keys v : List Coord) :
    missingCount keys v ≤ keys.length :=
  le_trans (Finset.card_le_card Finset.sdiff_subset) keys.toFinset_card_le

theorem mem_reachableFrom_of_reach {keys start : List Coord} {q : Coord}
    (h : Reach keys start q) : q ∈ reachableFrom keys start := by
  induction h with
  | base hp => exact subset_closureIter keys.length start hp
  | step hr hnb hk ih =>
    rename_i p q2
    refine closureIter_stable keys.length start (missingCount_le_length keys start) q2 ?_
    rw [mem_closureStep]
    by_cases hmem : q2 ∈ reachableFrom keys start
    · exact Or.inl hmem
    · exact Or.inr ⟨hk, hmem, p, ih, hnb⟩

/-- Membership in the flood-fill closure coincides with reachability. -/
theorem mem_reachableFrom {keys start : List Coord} {q : Coord} :
    q ∈ reachableFrom keys start ↔ Reach keys start q :=
  ⟨fun h => reach_of_mem_closureIter keys.length start (fun _ hq => Reach.base hq) q h,
   mem_reachableFrom_of_reach⟩

theorem reach_along {keys start : List Coord} :
    ∀ (l : List Coord) (s : Coord), Reach keys start s → (∀ q ∈ l, q ∈ keys) →
      List.Chain' AdjacentCoord (s :: l) → ∀ x ∈ s :: l, Reach keys start x := by
  intro l
  induction l with
  | nil =>
    intro s hs _ _ x hx
    rcases List.mem_cons.1 hx with rfl | hx
    · exact hs
    · simp at hx
  | cons a l ih =>
    intro s hs hk hch x hx
    have hadj : AdjacentCoord s a := (List.chain'_cons.1 hch).1
    have hra : Reach keys start a := Reach.step hs hadj (hk a (by simp))
    rcases List.mem_cons.1 hx with rfl | hx
    · exact hs
    · exact ih a hra (fun q hq => hk q (by simp [hq])) (List.chain'_cons.1 hch).2 x hx

theorem chain_of_reach {keys start : List Coord} {x : Coord}
    (h : Reach keys start x) :
    ∃ l : List Coord, List.Chain' AdjacentCoord l ∧
      (∀ q ∈ l, q ∈ keys ∨ q ∈ start) ∧
      (∃ s ∈ l.head?, s ∈ start) ∧ l.getLast? = some x := by
  induction h with
  | base hp =>
    rename_i p
    exact ⟨[p], List.chain'_singleton _, by simp [Or.inr hp], ⟨p, by simp, hp⟩, rfl⟩
  | step hr hnb hk ih =>
    rename_i p q
    obtain ⟨l, hch, hkall, hhead, hlast⟩ := ih
    have hlnil : l ≠ [] := by
      intro hl
      rw [hl] at hlast
      simp at hlast
    refine ⟨l ++ [q], ?_, ?_, ?_, ?_⟩
    · rw [List.chain'_append]
      refine ⟨hch, List.chain'_singleton _, ?_⟩
      intro a ha b hb
      simp at hb
      subst hb
      rw [hlast] at ha
      simp at ha
      subst ha
      exact hnb
    · intro z hz
      rcases List.mem_append.1 hz with h1 | h2
      · exact hkall z h1
      · simp at h2
        subst h2
        exact Or.inl hk
    · obtain ⟨s, hs1, hs2⟩ := hhead
      refine ⟨s, ?_, hs2⟩
      cases l with
      | nil => exact absurd rfl hlnil
      | cons hd tl => simpa using hs1
    · rw [List.getLast?_concat]

/-- Reachability coincides with lying on a path that starts at a seed, when
every seed is a registry key and seeds are exactly the near-column keys. -/
theorem reach_iff_onNearPath {keys : List Coord} {minC : Int} {x : Coord}
    (start : List Coord)
    (hstart : ∀ s, s ∈ start ↔ s ∈ keys ∧ s.2 ≤ minC) :
    Reach keys start x ↔ OnNearPath keys minC x := by
  constructor
  · intro h
    obtain ⟨l, hch, hkall, ⟨s, hs1, hs2⟩, hlast⟩ := chain_of_reach h
    refine ⟨l, hch, ?_, ⟨s, hs1, ((hstart s).1 hs2).2⟩, ?_⟩
    · intro q hq
      rcases hkall q hq with h1 | h2
      · exact h1
      · exact ((hstart q).1 h2).1
    · cases l with
      | nil => simp at hlast
      | cons hd tl =>
        have := List.getLast?_eq_getLast (hd :: tl) (List.cons_ne_nil hd tl)
        rw [this] at hlast
        have h2 := List.getLast_mem (List.cons_ne_nil hd tl)
        rw [Option.some_inj.1 hlast] at h2
        exact h2
  · rintro ⟨l, hch, hkall, ⟨s, hs1, hs2⟩, hx⟩
    cases l with
    | nil => simp at hx
    | cons hd tl =>
      simp at hs1
      subst hs1
      have hsr : Reach keys start hd :=
        Reach.base ((hstart hd).2 ⟨hkall hd (by simp), hs2⟩)
      exact reach_along tl hd hsr (fun q hq => hkall q (by simp [hq])) hch x hx

theorem hasKey_iff {w : Wall} {r c : Int} :
    w.hasKey r c = true ↔ (r, c) ∈ brickKeys w := by
  simp only [Wall.hasKey, brickKeys, List.any_eq_true, Bool.and_eq_true,
    decide_eq_true_eq, List.mem_map, Brick.coord, Prod.mk.injEq]

theorem brickKeys_analyze (w : Wall) :
    brickKeys (w.analyzeTopology).1 = brickKeys w := by
  simp only [Wall.analyzeTopology, brickKeys, List.map_map]
  rfl

theorem analyze_fields (w : Wall) :
    (w.analyzeTopology).1.masterMinCol = w.masterMinCol ∧
      (w.analyzeTopology).1.masterMaxCol = w.masterMaxCol ∧
      (w.analyzeTopology).1.pendingImpacts = w.pendingImpacts ∧
      (w.analyzeTopology).1.brickWidth = w.brickWidth ∧
      (w.analyzeTopology).1.canvasH = w.canvasH := by
  exact ⟨rfl, rfl, rfl, rfl, rfl⟩

theorem nearSeeds_eq_filter_keys (w : Wall) :
    nearSeeds w = (brickKeys w).filter fun q => decide (q.2 ≤ w.masterMinCol) := by
  simp only [nearSeeds, brickKeys, List.filter_map]
  rfl

theorem any_map_comp {α β : Type} (l : List α) (f : α → β) (p : β → Bool) :
    (l.map f).any p = l.any (p ∘ f) := by
  induction l with
  | nil => rfl
  | cons a l ih => simp [ih]

theorem analyze_snd_eq (w : Wall) :
    (w.analyzeTopology).2 = analyzeKeysVerdict (brickKeys w) w.masterMinCol w.masterMaxCol := by
  simp only [Wall.analyzeTopology, analyzeKeysVerdict, wallVisited,
    nearSeeds_eq_filter_keys, brickKeys]
  rw [any_map_comp]
  rfl

theorem analyze_snd_congr {w1 w2 : Wall} (hk : brickKeys w1 = brickKeys w2)
    (hmin : w1.masterMinCol = w2.masterMinCol) (hmax : w1.masterMaxCol = w2.masterMaxCol) :
    (w1.analyzeTopology).2 = (w2.analyzeTopology).2 := by
  rw [analyze_snd_eq, analyze_snd_eq, hk, hmin, hmax]

theorem analyze_rerun (w : Wall) :
    ((w.analyzeTopology).1.analyzeTopology).2 = (w.analyzeTopology).2 :=
  analyze_snd_congr (brickKeys_analyze w) (analyze_fields w).1 (analyze_fields w).2.1

theorem analyze_flag_iff {w : Wall} {b : Brick}
    (hb : b ∈ (w.analyzeTopology).1.bricks) :
    b.isOrphan = false ↔ Reach (brickKeys w) (nearSeeds w) b.coord := by
  simp only [Wall.analyzeTopology, List.mem_map] at hb
  obtain ⟨b0, hb0, rfl⟩ := hb
  have hcoord : (Brick.coord { b0 with isOrphan := decide (b0.coord ∉ wallVisited w) }) =
      b0.coord := rfl
  rw [hcoord]
  simp only [decide_eq_false_iff_not, not_not]
  rw [← @mem_reachableFrom (brickKeys w) (nearSeeds w) b0.coord]
  exact Iff.rfl

theorem brickKeys_updateInert (w : Wall) :
    brickKeys w.updateInertFlags = brickKeys w := by
  simp only [Wall.updateInertFlags, brickKeys, List.map_map]
  refine List.map_congr_left ?_
  intro b _
  simp only [Function.comp_apply]
  split_ifs <;> rfl

theorem updateInert_fields (w : Wall) :
    w.updateInertFlags.masterMinCol = w.masterMinCol ∧
      w.updateInertFlags.masterMaxCol = w.masterMaxCol ∧
      w.updateInertFlags.pendingImpacts = w.pendingImpacts := by
  exact ⟨rfl, rfl, rfl⟩

theorem brickKeys_deleteKey (w : Wall) (r c : Int) :
    brickKeys (w.deleteKey r c) =
      (brickKeys w).filter fun p => !(decide (p.1 = r) && decide (p.2 = c)) := by
  simp only [Wall.deleteKey, brickKeys, List.filter_map]
  rfl

theorem addBrickAt_occupied {w : Wall} {r c : Int} {t : Option BrickType}
    (h : w.hasKey r c = true) : w.addBrickAt r c t = (w, false) := by
  simp [Wall.addBrickAt, h]

theorem brickKeys_addBrickAt_free {w : Wall} {r c : Int} {t : Option BrickType}
    (h : w.hasKey r c = false) :
    brickKeys (w.addBrickAt r c t).1 = brickKeys w ++ [(r, c)] := by
  simp only [Wall.addBrickAt, h, Bool.false_eq_true, if_false, brickKeys_updateInert]
  simp [brickKeys, Brick.coord]

theorem addBrickAt_bounds (w : Wall) (r c : Int) (t : Option BrickType) :
    (w.addBrickAt r c t).1.masterMinCol = w.masterMinCol ∧
      (w.addBrickAt r c t).1.masterMaxCol = w.masterMaxCol := by
  by_cases h : w.hasKey r c = true
  · rw [addBrickAt_occupied h]
    exact ⟨rfl, rfl⟩
  · simp only [Wall.addBrickAt, Bool.not_eq_true] at *
    simp [h]
    exact ⟨rfl, rfl⟩

theorem brickKeys_addBrickAt_mono {w : Wall} {r c : Int} {t : Option BrickType}
    {q : Coord} (hq : q ∈ brickKeys w) : q ∈ brickKeys (w.addBrickAt r c t).1 := by
  by_cases h : w.hasKey r c = true
  · rw [addBrickAt_occupied h]
    exact hq
  · rw [brickKeys_addBrickAt_free (Bool.not_eq_true _ ▸ h)]
    exact List.mem_append.2 (Or.inl hq)

theorem brickKeys_addBrickAt_self (w : Wall) (r c : Int) (t : Option BrickType) :
    (r, c) ∈ brickKeys (w.addBrickAt r c t).1 := by
  by_cases h : w.hasKey r c = true
  · rw [addBrickAt_occupied h]
    exact hasKey_iff.1 h
  · rw [brickKeys_addBrickAt_free (Bool.not_eq_true _ ▸ h)]
    exact List.mem_append.2 (Or.inr (by simp))

theorem filter_out_append_self {ks : List Coord} {r c : Int}
    (h : (r, c) ∉ ks) :
    ((ks ++ [(r, c)]).filter fun p => !(decide (p.1 = r) && decide (p.2 = c))) = ks := by
  rw [List.filter_append]
  have h1 : (([(r, c)] : List Coord).filter
      fun p => !(decide (p.1 = r) && decide (p.2 = c))) = [] := by simp
  have h2 : (ks.filter fun p => !(decide (p.1 = r) && decide (p.2 = c))) = ks := by
    refine List.filter_eq_self.2 ?_
    intro a ha
    simp only [Bool.not_eq_true', Bool.and_eq_false_iff, decide_eq_false_iff_not]
    by_contra hc
    push_neg at hc
    have : a = (r, c) := Prod.ext hc.1 hc.2
    exact h (this ▸ ha)
  rw [h1, h2, List.append_nil]

theorem individualPass_fail_keys (ρ : Nat → Option BrickType) :
    ∀ (cands : List Coord) (w : Wall) (k : Nat),
      (individualPass ρ cands w k).2.1 = false →
      brickKeys (individualPass ρ cands w k).1 = brickKeys w := by
  intro cands
  induction cands with
  | nil => intro w k _; rfl
  | cons p rest ih =>
    intro w k hfail
    obtain ⟨cr, cc⟩ := p
    by_cases hocc : w.hasKey cr cc = true
    · simp only [individualPass, hocc, if_true] at hfail ⊢
      exact ih w k hfail
    · have hocc2 : w.hasKey cr cc = false := by
        cases h : w.hasKey cr cc
        · rfl
        · exact absurd h hocc
      simp only [individualPass, hocc2, Bool.false_eq_true, if_false] at hfail ⊢
      set w1 := (w.addBrickAt cr cc (ρ k)).1 with hw1
      by_cases hconn : (w1.analyzeTopology).2 = true
      · simp only [hconn, if_true] at hfail
        simp at hfail
      · have hconn2 : (w1.analyzeTopology).2 = false := by
          cases h : (w1.analyzeTopology).2
          · rfl
          · exact absurd h hconn
        simp only [hconn2, Bool.false_eq_true, if_false] at hfail ⊢
        have hkeysdel : brickKeys ((w1.analyzeTopology).1.deleteKey cr cc) = brickKeys w := by
          rw [brickKeys_deleteKey, brickKeys_analyze, hw1,
            brickKeys_addBrickAt_free hocc2]
          exact filter_out_append_self (fun hm => by
            exact hocc (hasKey_iff.2 hm))
        rw [ih _ _ hfail, hkeysdel]

theorem individualPass_true_spec (ρ : Nat → Option BrickType) :
    ∀ (cands : List Coord) (w : Wall) (k : Nat),
      (individualPass ρ cands w k).2.1 = true →
      ∃ p ∈ cands, p ∉ brickKeys w ∧
        brickKeys (individualPass ρ cands w k).1 = brickKeys w ++ [p] := by
  intro cands
  induction cands with
  | nil => intro w k h; simp [individualPass] at h
  | cons p rest ih =>
    intro w k hsucc
    obtain ⟨cr, cc⟩ := p
    by_cases hocc : w.hasKey cr cc = true
    · simp only [individualPass, hocc, if_true] at hsucc ⊢
      obtain ⟨q, hq, hnq, hk⟩ := ih w k hsucc
      exact ⟨q, by simp [hq], hnq, hk⟩
    · have hocc2 : w.hasKey cr cc = false := by
        cases h : w.hasKey cr cc
        · rfl
        · exact absurd h hocc
      simp only [individualPass, hocc2, Bool.false_eq_true, if_false] at hsucc ⊢
      set w1 := (w.addBrickAt cr cc (ρ k)).1 with hw1
      by_cases hconn : (w1.analyzeTopology).2 = true
      · simp only [hconn, if_true] at hsucc ⊢
        refine ⟨(cr, cc), by simp, fun hm => hocc (hasKey_iff.2 hm), ?_⟩
        rw [brickKeys_analyze, hw1, brickKeys_addBrickAt_free hocc2]
      · have hconn2 : (w1.analyzeTopology).2 = false := by
          cases h : (w1.analyzeTopology).2
          · rfl
          · exact absurd h hconn
        simp only [hconn2, Bool.false_eq_true, if_false] at hsucc ⊢
        have hkeysdel : brickKeys ((w1.analyzeTopology).1.deleteKey cr cc) = brickKeys w := by
          rw [brickKeys_deleteKey, brickKeys_analyze, hw1,
            brickKeys_addBrickAt_free hocc2]
          exact filter_out_append_self (fun hm => hocc (hasKey_iff.2 hm))
        obtain ⟨q, hq, hnq, hk⟩ := ih _ _ hsucc
        rw [hkeysdel] at hnq hk
        exact ⟨q, by simp [hq], hnq, hk⟩

theorem individualPass_true_rerun (ρ : Nat → Option BrickType) :
    ∀ (cands : List Coord) (w : Wall) (k : Nat),
      (individualPass ρ cands w k).2.1 = true →
      (((individualPass ρ cands w k).1).analyzeTopology).2 = true := by
  intro cands
  induction cands with
  | nil => intro w k h; simp [individualPass] at h
  | cons p rest ih =>
    intro w k hsucc
    obtain ⟨cr, cc⟩ := p
    by_cases hocc : w.hasKey cr cc = true
    · simp only [individualPass, hocc, if_true] at hsucc ⊢
      exact ih w k hsucc
    · have hocc2 : w.hasKey cr cc = false := by
        cases h : w.hasKey cr cc
        · rfl
        · exact absurd h hocc
      simp only [individualPass, hocc2, Bool.false_eq_true, if_false] at hsucc ⊢
      set w1 := (w.addBrickAt cr cc (ρ k)).1 with hw1
      by_cases hconn : (w1.analyzeTopology).2 = true
      · simp only [hconn, if_true]
        rw [analyze_rerun]
        exact hconn
      · have hconn2 : (w1.analyzeTopology).2 = false := by
          cases h : (w1.analyzeTopology).2
          · rfl
          · exact absurd h hconn
        simp only [hconn2, Bool.false_eq_true, if_false] at hsucc ⊢
        exact ih _ _ hsucc

theorem individualPass_bounds (ρ : Nat → Option BrickType) :
    ∀ (cands : List Coord) (w : Wall) (k : Nat),
      (individualPass ρ cands w k).1.masterMinCol = w.masterMinCol ∧
        (individualPass ρ cands w k).1.masterMaxCol = w.masterMaxCol := by
  intro cands
  induction cands with
  | nil => intro w k; exact ⟨rfl, rfl⟩
  | cons p rest ih =>
    intro w k
    obtain ⟨cr, cc⟩ := p
    by_cases hocc : w.hasKey cr cc = true
    · simp only [individualPass, hocc, if_true]
      exact ih w k
    · have hocc2 : w.hasKey cr cc = false := by
        cases h : w.hasKey cr cc
        · rfl
        · exact absurd h hocc
      simp only [individualPass, hocc2, Bool.false_eq_true, if_false]
      set w1 := (w.addBrickAt cr cc (ρ k)).1 with hw1
      have hb1 : w1.masterMinCol = w.masterMinCol ∧ w1.masterMaxCol = w.masterMaxCol := by
        rw [hw1]
        exact addBrickAt_bounds w cr cc (ρ k)
      by_cases hconn : (w1.analyzeTopology).2 = true
      · simp only [hconn, if_true]
        rw [(analyze_fields w1).1, (analyze_fields w1).2.1]
        exact hb1
      · have hconn2 : (w1.analyzeTopology).2 = false := by
          cases h : (w1.analyzeTopology).2
          · rfl
          · exact absurd h hconn
        simp only [hconn2, Bool.false_eq_true, if_false]
        have := ih ((w1.analyzeTopology).1.deleteKey cr cc) (k + 1)
        rw [this.1, this.2]
        constructor
        · show (w1.analyzeTopology).1.masterMinCol = w.masterMinCol
          rw [(analyze_fields w1).1]
          exact hb1.1
        · show (w1.analyzeTopology).1.masterMaxCol = w.masterMaxCol
          rw [(analyze_fields w1).2.1]
          exact hb1.2

theorem collectivePass_mono (ρ : Nat → Option BrickType) :
    ∀ (cands : List Coord) (w : Wall) (k : Nat) (q : Coord),
      q ∈ brickKeys w → q ∈ brickKeys (collectivePass ρ cands w k).1 := by
  intro cands
  induction cands with
  | nil => intro w k q hq; exact hq
  | cons p rest ih =>
    intro w k q hq
    obtain ⟨cr, cc⟩ := p
    simp only [collectivePass]
    set w1 := (w.addBrickAt cr cc (ρ k)).1 with hw1
    have hq1 : q ∈ brickKeys (w1.analyzeTopology).1 := by
      rw [brickKeys_analyze, hw1]
      exact brickKeys_addBrickAt_mono hq
    by_cases hconn : (w1.analyzeTopology).2 = true
    · simp only [hconn, if_true]
      exact hq1
    · have hconn2 : (w1.analyzeTopology).2 = false := by
        cases h : (w1.analyzeTopology).2
        · rfl
        · exact absurd h hconn
      simp only [hconn2, Bool.false_eq_true, if_false]
      exact ih _ _ q hq1

theorem collectivePass_fail_all (ρ : Nat → Option BrickType) :
    ∀ (cands : List Coord) (w : Wall) (k : Nat),
      (collectivePass ρ cands w k).2.1 = false →
      ∀ p ∈ cands, p ∈ brickKeys (collectivePass ρ cands w k).1 := by
  intro cands
  induction cands with
  | nil => intro w k _ p hp; simp at hp
  | cons p0 rest ih =>
    intro w k hfail p hp
    obtain ⟨cr, cc⟩ := p0
    simp only [collectivePass] at hfail ⊢
    set w1 := (w.addBrickAt cr cc (ρ k)).1 with hw1
    by_cases hconn : (w1.analyzeTopology).2 = true
    · simp only [hconn, if_true] at hfail
      simp at hfail
    · have hconn2 : (w1.analyzeTopology).2 = false := by
        cases h : (w1.analyzeTopology).2
        · rfl
        · exact absurd h hconn
      simp only [hconn2, Bool.false_eq_true, if_false] at hfail ⊢
      rcases List.mem_cons.1 hp with rfl | hp2
      · refine collectivePass_mono ρ rest _ _ (cr, cc) ?_
        rw [brickKeys_analyze, hw1]
        exact brickKeys_addBrickAt_self w cr cc (ρ k)
      · exact ih _ _ hfail p hp2

theorem collectivePass_true_rerun (ρ : Nat → Option BrickType) :
    ∀ (cands : List Coord) (w : Wall) (k : Nat),
      (collectivePass ρ cands w k).2.1 = true →
      (((collectivePass ρ cands w k).1).analyzeTopology).2 = true := by
  intro cands
  induction cands with
  | nil => intro w k h; simp [collectivePass] at h
  | cons p rest ih =>
    intro w k hsucc
    obtain ⟨cr, cc⟩ := p
    simp only [collectivePass] at hsucc ⊢
    set w1 := (w.addBrickAt cr cc (ρ k)).1 with hw1
    by_cases hconn : (w1.analyzeTopology).2 = true
    · simp only [hconn, if_true]
      rw [analyze_rerun]
      exact hconn
    · have hconn2 : (w1.analyzeTopology).2 = false := by
        cases h : (w1.analyzeTopology).2
        · rfl
        · exact absurd h hconn
      simp only [hconn2, Bool.false_eq_true, if_false] at hsucc ⊢
      exact ih _ _ hsucc

theorem collectivePass_bounds (ρ : Nat → Option BrickType) :
    ∀ (cands : List Coord) (w : Wall) (k : Nat),
      (collectivePass ρ cands w k).1.masterMinCol = w.masterMinCol ∧
        (collectivePass ρ cands w k).1.masterMaxCol = w.masterMaxCol := by
  intro cands
  induction cands with
  | nil => intro w k; exact ⟨rfl, rfl⟩
  | cons p rest ih =>
    intro w k
    obtain ⟨cr, cc⟩ := p
    simp only [collectivePass]
    set w1 := (w.addBrickAt cr cc (ρ k)).1 with hw1
    have hb1 : w1.masterMinCol = w.masterMinCol ∧ w1.masterMaxCol = w.masterMaxCol := by
      rw [hw1]
      exact addBrickAt_bounds w cr cc (ρ k)
    by_cases hconn : (w1.analyzeTopology).2 = true
    · simp only [hconn, if_true]
      rw [(analyze_fields w1).1, (analyze_fields w1).2.1]
      exact hb1
    · have hconn2 : (w1.analyzeTopology).2 = false := by
        cases h : (w1.analyzeTopology).2
        · rfl
        · exact absurd h hconn
      simp only [hconn2, Bool.false_eq_true, if_false]
      have := ih ((w1.analyzeTopology).1) (k + 1)
      rw [this.1, this.2, (analyze_fields w1).1, (analyze_fields w1).2.1]
      exact hb1

theorem analyze_snd_updateInert (w : Wall) :
    ((w.updateInertFlags).analyzeTopology).2 = (w.analyzeTopology).2 :=
  analyze_snd_congr (brickKeys_updateInert w) rfl rfl

theorem clearSpecialType_some (k : BrickType) :
    clearSpecialType (some k) = none := by
  cases k <;> rfl

theorem processWallImpact_bounds (w : Wall) (hit : Brick) (s : Side)
    (ρ : Nat → Option BrickType) :
    (w.processWallImpact hit s ρ).masterMinCol = w.masterMinCol ∧
      (w.processWallImpact hit s ρ).masterMaxCol = w.masterMaxCol := by
  unfold Wall.processWallImpact
  by_cases hin : hit.inertFromSide = some s
  · rw [if_pos hin]
    exact ⟨rfl, rfl⟩
  · rw [if_neg hin]
    set w1 := ({ w with lastHitBrickType := hit.type }).deleteKey hit.row hit.col with hw1
    have hb1 : w1.masterMinCol = w.masterMinCol ∧ w1.masterMaxCol = w.masterMaxCol :=
      ⟨rfl, rfl⟩
    by_cases hconn : (w1.analyzeTopology).2 = true
    · simp only [hconn, if_true]
      exact ⟨hb1.1, hb1.2⟩
    · have hconn2 : (w1.analyzeTopology).2 = false := by
        cases h : (w1.analyzeTopology).2
        · rfl
        · exact absurd h hconn
      simp only [hconn2, Bool.false_eq_true, if_false]
      set cands := repairCandidates hit.row hit.col (sideDelta s) with hcands
      set r1 := individualPass ρ cands (w1.analyzeTopology).1 0 with hr1
      have hbi := individualPass_bounds ρ cands (w1.analyzeTopology).1 0
      rw [(analyze_fields w1).1, (analyze_fields w1).2.1] at hbi
      by_cases hind : r1.2.1 = true
      · simp only [hind, if_true]
        rw [← hr1] at hbi
        exact ⟨hbi.1.trans hb1.1, hbi.2.trans hb1.2⟩
      · have hind2 : r1.2.1 = false := by
          cases h : r1.2.1
          · rfl
          · exact absurd h hind
        simp only [hind2, Bool.false_eq_true, if_false]
        have hbc := collectivePass_bounds ρ cands r1.1 r1.2.2
        rw [← hr1] at hbi
        constructor
        · show (collectivePass ρ cands r1.1 r1.2.2).1.updateInertFlags.masterMinCol =
            w.masterMinCol
          rw [(updateInert_fields _).1, hbc.1, hbi.1, hb1.1]
        · show (collectivePass ρ cands r1.1 r1.2.2).1.updateInertFlags.masterMaxCol =
            w.masterMaxCol
          rw [(updateInert_fields _).2.1, hbc.2, hbi.2, hb1.2]

theorem processWallImpact_connected_or_planted (w : Wall) (hit : Brick) (s : Side)
    (ρ : Nat → Option BrickType) (hin : hit.inertFromSide ≠ some s) :
    (((w.processWallImpact hit s ρ).analyzeTopology).2 = true) ∨
      (∀ p ∈ repairCandidates hit.row hit.col (sideDelta s),
        p ∈ brickKeys (w.processWallImpact hit s ρ)) := by
  unfold Wall.processWallImpact
  simp only [hin, if_false]
  set w1 := ({ w with lastHitBrickType := hit.type }).deleteKey hit.row hit.col with hw1
  by_cases hconn : (w1.analyzeTopology).2 = true
  · simp only [hconn, if_true]
    left
    rw [analyze_snd_updateInert, analyze_rerun]
    exact hconn
  · have hconn2 : (w1.analyzeTopology).2 = false := by
      cases h : (w1.analyzeTopology).2
      · rfl
      · exact absurd h hconn
    simp only [hconn2, Bool.false_eq_true, if_false]
    set cands := repairCandidates hit.row hit.col (sideDelta s) with hcands
    set r1 := individualPass ρ cands (w1.analyzeTopology).1 0 with hr1
    by_cases hind : r1.2.1 = true
    · simp only [hind, if_true]
      left
      rw [analyze_snd_updateInert]
      rw [hr1]
      exact individualPass_true_rerun ρ cands (w1.analyzeTopology).1 0 (hr1 ▸ hind)
    · have hind2 : r1.2.1 = false := by
        cases h : r1.2.1
        · rfl
        · exact absurd h hind
      simp only [hind2, Bool.false_eq_true, if_false]
      set c2 := collectivePass ρ cands r1.1 r1.2.2 with hc2
      by_cases hcoll : c2.2.1 = true
      · left
        rw [analyze_snd_updateInert]
        rw [hc2]
        exact collectivePass_true_rerun ρ cands r1.1 r1.2.2 (hc2 ▸ hcoll)
      · have hcoll2 : c2.2.1 = false := by
          cases h : c2.2.1
          · rfl
          · exact absurd h hcoll
        right
        intro p hp
        rw [brickKeys_updateInert]
        rw [hc2]
        exact collectivePass_fail_all ρ cands r1.1 r1.2.2 (hc2 ▸ hcoll2) p hp

theorem resolveAux_bounds (ρs : Nat → Nat → Option BrickType) :
    ∀ (entries : List (Coord × Side)) (i : Nat) (w : Wall),
      (resolveAux ρs entries i w).masterMinCol = w.masterMinCol ∧
        (resolveAux ρs entries i w).masterMaxCol = w.masterMaxCol := by
  intro entries
  induction entries with
  | nil => intro i w; exact ⟨rfl, rfl⟩
  | cons e rest ih =>
    intro i w
    obtain ⟨⟨r, c⟩, side⟩ := e
    simp only [resolveAux]
    cases hg : w.getBrick r c with
    | none => exact ih (i + 1) w
    | some b =>
      have h1 := ih (i + 1) (w.processWallImpact b side (ρs i))
      have h2 := processWallImpact_bounds w b side (ρs i)
      exact ⟨h1.1.trans h2.1, h1.2.trans h2.2⟩

theorem resolveAux_absent (ρs : Nat → Nat → Option BrickType) :
    ∀ (entries : List (Coord × Side)) (i : Nat) (w : Wall),
      (∀ e ∈ entries, w.getBrick e.1.1 e.1.2 = none) →
      resolveAux ρs entries i w = w := by
  intro entries
  induction entries with
  | nil => intro i w _; rfl
  | cons e rest ih =>
    intro i w h
    obtain ⟨⟨r, c⟩, side⟩ := e
    have he : w.getBrick r c = none := h ((r, c), side) (by simp)
    simp only [resolveAux, he]
    exact ih (i + 1) w (fun e2 he2 => h e2 (by simp [he2]))

theorem resolveAux_append (ρs : Nat → Nat → Option BrickType) :
    ∀ (l1 l2 : List (Coord × Side)) (i : Nat) (w : Wall),
      resolveAux ρs (l1 ++ l2) i w =
        resolveAux ρs l2 (i + l1.length) (resolveAux ρs l1 i w) := by
  intro l1
  induction l1 with
  | nil => intro l2 i w; simp [resolveAux]
  | cons e rest ih =>
    intro l2 i w
    obtain ⟨⟨r, c⟩, side⟩ := e
    cases hg : w.getBrick r c with
    | none =>
      simp only [List.cons_append, resolveAux, hg, List.append_eq, List.length_cons, ih]
      have h2 : i + 1 + rest.length = i + (rest.length + 1) := by omega
      rw [h2]
    | some b =>
      simp only [List.cons_append, resolveAux, hg, List.append_eq, List.length_cons, ih]
      have h2 : i + 1 + rest.length = i + (rest.length + 1) := by omega
      rw [h2]

theorem lookup_map_of_mem {key : Coord} {s : Side} :
    ∀ l : List (Coord × Side), (∃ e ∈ l, e.1 = key) →
      lookupPending (l.map fun e => if e.1 = key then (key, s) else e) key = some s := by
  intro l
  induction l with
  | nil => rintro ⟨e, he, _⟩; simp at he
  | cons a rest ih =>
    rintro ⟨e, he, hek⟩
    by_cases ha : a.1 = key
    · simp only [List.map_cons, if_pos ha, lookupPending]
      rw [List.find?_cons_of_pos]
      · rfl
      · simp
    · simp only [List.map_cons, if_neg ha, lookupPending]
      rw [List.find?_cons_of_neg]
      · refine ih ⟨e, ?_, hek⟩
        rcases List.mem_cons.1 he with rfl | h2
        · exact absurd hek ha
        · exact h2
      · simp [ha]

theorem lookup_append_absent {key : Coord} {s : Side} :
    ∀ l : List (Coord × Side), (∀ e ∈ l, e.1 ≠ key) →
      lookupPending (l ++ [(key, s)]) key = some s := by
  intro l
  induction l with
  | nil =>
    intro _
    simp only [List.nil_append, lookupPending]
    rw [List.find?_cons_of_pos]
    · rfl
    · simp
  | cons a rest ih =>
    intro h
    simp only [List.cons_append, lookupPending]
    rw [List.find?_cons_of_neg]
    · exact ih fun e he => h e (by simp [he])
    · simp [h a (by simp)]

theorem lookup_setPending_self (l : List (Coord × Side)) (key : Coord) (s : Side) :
    lookupPending (setPending l key s) key = some s := by
  by_cases h : (l.any fun e => decide (e.1 = key)) = true
  · rw [setPending, if_pos h]
    simp only [List.any_eq_true, decide_eq_true_eq] at h
    exact lookup_map_of_mem l h
  · rw [setPending, if_neg h]
    simp only [List.any_eq_true, decide_eq_true_eq] at h
    push_neg at h
    exact lookup_append_absent l h

theorem setPending_fst_overwrite (l : List (Coord × Side)) (key : Coord) (s : Side) :
    ((l.map fun e => if e.1 = key then (key, s) else e).map Prod.fst) = l.map Prod.fst := by
  rw [List.map_map]
  refine List.map_congr_left ?_
  intro e _
  simp only [Function.comp_apply]
  by_cases he : e.1 = key
  · rw [if_pos he]
    exact he.symm
  · rw [if_neg he]

theorem setPending_fst_nodup {l : List (Coord × Side)} {key : Coord} {s : Side}
    (h : (l.map Prod.fst).Nodup) : ((setPending l key s).map Prod.fst).Nodup := by
  by_cases hp : (l.any fun e => decide (e.1 = key)) = true
  · rw [setPending, if_pos hp, setPending_fst_overwrite]
    exact h
  · rw [setPending, if_neg hp]
    simp only [List.any_eq_true, decide_eq_true_eq] at hp
    push_neg at hp
    rw [List.map_append]
    simp only [List.map_cons, List.map_nil]
    rw [List.nodup_append]
    refine ⟨h, List.nodup_singleton key, ?_⟩
    intro a ha hb
    simp only [List.mem_singleton] at hb
    subst hb
    obtain ⟨e, he, hek⟩ := List.mem_map.1 ha
    exact hp e he hek

theorem find?_rowcol_map (f : Brick → Brick) (hrow : ∀ b, (f b).row = b.row)
    (hcol : ∀ b, (f b).col = b.col) (r c : Int) :
    ∀ l : List Brick,
      ((l.map f).find? fun b => decide (b.row = r) && decide (b.col = c)) =
        (l.find? fun b => decide (b.row = r) && decide (b.col = c)).map f := by
  intro l
  induction l with
  | nil => rfl
  | cons a rest ih =>
    by_cases hp : (decide (a.row = r) && decide (a.col = c)) = true
    · have hpf : (decide ((f a).row = r) && decide ((f a).col = c)) = true := by
        rw [hrow, hcol]
        exact hp
      rw [List.map_cons,
        @List.find?_cons_of_pos _ (fun b => decide (b.row = r) && decide (b.col = c))
          (f a) (List.map f rest) hpf,
        @List.find?_cons_of_pos _ (fun b => decide (b.row = r) && decide (b.col = c))
          a rest hp]
      rfl
    · have hpf : ¬(decide ((f a).row = r) && decide ((f a).col = c)) = true := by
        rw [hrow, hcol]
        exact hp
      rw [List.map_cons,
        @List.find?_cons_of_neg _ (fun b => decide (b.row = r) && decide (b.col = c))
          (f a) (List.map f rest) hpf,
        @List.find?_cons_of_neg _ (fun b => decide (b.row = r) && decide (b.col = c))
          a rest hp, ih]

theorem brickKeys_map_preserving {w : Wall} {f : Brick → Brick}
    (hrow : ∀ b, (f b).row = b.row) (hcol : ∀ b, (f b).col = b.col) :
    (w.bricks.map f).map Brick.coord = brickKeys w := by
  rw [List.map_map, brickKeys]
  refine List.map_congr_left ?_
  intro b _
  simp only [Function.comp_apply, Brick.coord]
  rw [hrow, hcol]

theorem natAbs_parity_add_one (r : Int) : (r + 1).natAbs % 2 = 1 - r.natAbs % 2 := by
  omega

theorem natAbs_parity_sub_one (r : Int) : (r - 1).natAbs % 2 = 1 - r.natAbs % 2 := by
  omega

theorem analyze_fst_eq (w : Wall) :
    (w.analyzeTopology).1 = { w with bricks := w.bricks.map fun b =>
      { b with isOrphan := decide (b.coord ∉ wallVisited w) } } := rfl

theorem wallVisited_analyze (w : Wall) :
    wallVisited ((w.analyzeTopology).1) = wallVisited w := by
  rw [wallVisited, wallVisited, brickKeys_analyze, nearSeeds_eq_filter_keys,
    nearSeeds_eq_filter_keys, brickKeys_analyze]
  rfl

theorem analyze_idem_fst (w : Wall) :
    ((w.analyzeTopology).1.analyzeTopology).1 = (w.analyzeTopology).1 := by
  rw [analyze_fst_eq ((w.analyzeTopology).1), wallVisited_analyze]
  rw [analyze_fst_eq w]
  show ({ w with bricks := (w.bricks.map fun b =>
      { b with isOrphan := decide (b.coord ∉ wallVisited w) }).map fun b =>
      { b with isOrphan := decide (b.coord ∉ wallVisited w) } } : Wall) =
    { w with bricks := w.bricks.map fun b =>
      { b with isOrphan := decide (b.coord ∉ wallVisited w) } }
  congr 1
  rw [List.map_map]
  exact List.map_congr_left fun b _ => rfl

/-- Claim C7: the parity-dependent 6-neighbor relation of `getMasonryNeighbors`
is symmetric: whenever a coordinate appears among the neighbors of another,
the converse holds as well, for all integer rows and columns (including
across row 0 and for negative rows). -/
theorem c7_masonry_adjacency_symmetric (r c r2 c2 : Int)
    (h : (r2, c2) ∈ getMasonryNeighbors r c) :
    (r, c) ∈ getMasonryNeighbors r2 c2 := by
  rcases Nat.mod_two_eq_zero_or_one r.natAbs with hr | hr
  · simp [getMasonryNeighbors, hr, Prod.mk.injEq] at h
    rcases h with ⟨rfl, rfl⟩ | ⟨rfl, rfl⟩ | ⟨rfl, rfl⟩ | ⟨rfl, rfl⟩ | ⟨rfl, rfl⟩ | ⟨rfl, rfl⟩ <;>
      simp [getMasonryNeighbors, natAbs_parity_add_one, natAbs_parity_sub_one, hr,
        Prod.mk.injEq]
  · simp [getMasonryNeighbors, hr, Prod.mk.injEq] at h
    rcases h with ⟨rfl, rfl⟩ | ⟨rfl, rfl⟩ | ⟨rfl, rfl⟩ | ⟨rfl, rfl⟩ | ⟨rfl, rfl⟩ | ⟨rfl, rfl⟩ <;>
      simp [getMasonryNeighbors, natAbs_parity_add_one, natAbs_parity_sub_one, hr,
        Prod.mk.injEq]

/-- Witness for C7 at a concrete input crossing row 0: (-1, -1) is a
neighbor of (0, 0), and conversely. -/
theorem c7_masonry_adjacency_symmetric_witness :
    ((-1 : Int), (-1 : Int)) ∈ getMasonryNeighbors 0 0 ∧
      ((0 : Int), (0 : Int)) ∈ getMasonryNeighbors (-1) (-1) :=
  ⟨by decide, c7_masonry_adjacency_symmetric 0 0 (-1) (-1) (by decide)⟩

/-- Claim C8: the analyzer is idempotent: a second call on the analyzed wall
returns the identical wall (in particular identical orphan assignments on
every brick) and the identical boolean verdict. -/
theorem c8_analyze_idempotent (w : Wall) :
    ((w.analyzeTopology).1.analyzeTopology).1 = (w.analyzeTopology).1 ∧
      ((w.analyzeTopology).1.analyzeTopology).2 = (w.analyzeTopology).2 :=
  ⟨analyze_idem_fst w, analyze_rerun w⟩

/-- Claim C10: the analyzer neither adds nor removes registry entries, and
mutates only the orphan flags: the coordinate list is unchanged and every
brick keeps its row, column, kind and inertness. -/
theorem c10_analyze_frame (w : Wall) :
    brickKeys (w.analyzeTopology).1 = brickKeys w ∧
      ((w.analyzeTopology).1.bricks.map fun b => (b.row, b.col, b.type, b.inertFromSide)) =
        (w.bricks.map fun b => (b.row, b.col, b.type, b.inertFromSide)) := by
  refine ⟨brickKeys_analyze w, ?_⟩
  rw [analyze_fst_eq]
  show ((w.bricks.map fun b =>
      { b with isOrphan := decide (b.coord ∉ wallVisited w) }).map fun b =>
      (b.row, b.col, b.type, b.inertFromSide)) = _
  rw [List.map_map]
  exact List.map_congr_left fun b _ => rfl

/-- Claim C2 as amended: after the analyzer runs, a brick is non-orphan iff it lies
on some path of adjacent present bricks starting at a brick whose column is
at or before `masterMinCol`; reaching a brick at or beyond `masterMaxCol`
along the path is not required. -/
theorem c2_amended_orphan_iff_near_path (w : Wall) (b : Brick)
    (hb : b ∈ (w.analyzeTopology).1.bricks) :
    b.isOrphan = false ↔ OnNearPath (brickKeys w) w.masterMinCol b.coord := by
  rw [analyze_flag_iff hb]
  refine reach_iff_onNearPath (nearSeeds w) ?_
  intro s
  rw [nearSeeds_eq_filter_keys]
  simp [List.mem_filter]

/-- Witness for C2 (amended) at a concrete wall: the analyzed brick of
`wallOneBrick` is in the analyzed registry, and the equivalence holds
for it. -/
theorem c2_amended_orphan_iff_near_path_witness :
    ({ mkBrick 0 0 with isOrphan := false } ∈ (wallOneBrick.analyzeTopology).1.bricks) ∧
      (({ mkBrick 0 0 with isOrphan := false } : Brick).isOrphan = false ↔
        OnNearPath (brickKeys wallOneBrick) wallOneBrick.masterMinCol
          ({ mkBrick 0 0 with isOrphan := false } : Brick).coord) :=
  ⟨by decide,
   c2_amended_orphan_iff_near_path wallOneBrick { mkBrick 0 0 with isOrphan := false }
     (by decide)⟩

/-- Counterexample for C2 as stated: in the one-brick wall the analyzer leaves the brick at
(0, 0) non-orphan, yet that brick lies on no path of adjacent bricks
connecting a near-boundary brick to a brick at or beyond the far boundary
column 5: the claimed biconditional fails in the forward direction. -/
theorem c2_counterexample :
    (((wallOneBrick.analyzeTopology).1.getBrick 0 0).map Brick.isOrphan = some false) ∧
      ¬ OnConnectingPath (brickKeys wallOneBrick) 0 5 (0, 0) := by
  constructor
  · decide
  · rintro ⟨l, _, hk, _, ⟨t, ht1, ht2⟩, _⟩
    have htl : t ∈ l := List.mem_of_mem_getLast? ht1
    have := hk t htl
    have ht0 : t = ((0 : Int), (0 : Int)) := by
      simpa [brickKeys, wallOneBrick, mkBrick, Brick.coord] using this
    rw [ht0] at ht2
    simp at ht2

/-- Claim C6: hitting a brick that is inert to the striking side leaves the
registry's coordinate list unchanged, leaves every other coordinate's entry
untouched, and replaces the kind of the brick stored at the struck
coordinate by its cleared kind, where clearing maps every power-up or demo
kind to none (so a carried kind is consumed exactly once). -/
theorem c6_inert_absorption (w : Wall) (hit : Brick) (s : Side)
    (ρ : Nat → Option BrickType) (hin : hit.inertFromSide = some s) :
    brickKeys (w.processWallImpact hit s ρ) = brickKeys w ∧
      (∀ r c : Int, ¬(r = hit.row ∧ c = hit.col) →
        (w.processWallImpact hit s ρ).getBrick r c = w.getBrick r c) ∧
      (∀ b0 : Brick, w.getBrick hit.row hit.col = some b0 →
        (w.processWallImpact hit s ρ).getBrick hit.row hit.col =
          some { b0 with type := clearSpecialType b0.type }) ∧
      (∀ k : BrickType, clearSpecialType (some k) = none) := by
  have hres : w.processWallImpact hit s ρ =
      { w with lastHitBrickType := hit.type
               bricks := w.bricks.map fun b =>
                 if b.row = hit.row ∧ b.col = hit.col then
                   { b with type := clearSpecialType b.type } else b } := by
    unfold Wall.processWallImpact
    rw [if_pos hin]
  have hrow : ∀ b : Brick,
      ((fun b => if b.row = hit.row ∧ b.col = hit.col then
        { b with type := clearSpecialType b.type } else b) b).row = b.row := by
    intro b
    dsimp only
    by_cases hb : b.row = hit.row ∧ b.col = hit.col
    · rw [if_pos hb]
    · rw [if_neg hb]
  have hcol : ∀ b : Brick,
      ((fun b => if b.row = hit.row ∧ b.col = hit.col then
        { b with type := clearSpecialType b.type } else b) b).col = b.col := by
    intro b
    dsimp only
    by_cases hb : b.row = hit.row ∧ b.col = hit.col
    · rw [if_pos hb]
    · rw [if_neg hb]
  refine ⟨?_, ?_, ?_, fun k => clearSpecialType_some k⟩
  · rw [hres]
    exact brickKeys_map_preserving hrow hcol
  · intro r c hrc
    rw [hres]
    simp only [Wall.getBrick]
    rw [find?_rowcol_map _ hrow hcol r c w.bricks]
    cases hg : w.bricks.find? fun b => decide (b.row = r) && decide (b.col = c) with
    | none => rfl
    | some b0 =>
      have hp := List.find?_some hg
      simp only [Bool.and_eq_true, decide_eq_true_eq] at hp
      have hne : ¬(b0.row = hit.row ∧ b0.col = hit.col) := by
        intro hc
        exact hrc ⟨hp.1 ▸ hc.1, hp.2 ▸ hc.2⟩
      simp only [Option.map_some', Option.some.injEq]
      rw [if_neg hne]
  · intro b0 hb0
    rw [hres]
    simp only [Wall.getBrick]
    rw [find?_rowcol_map _ hrow hcol hit.row hit.col w.bricks]
    rw [Wall.getBrick] at hb0
    rw [hb0]
    have hp := List.find?_some hb0
    simp only [Bool.and_eq_true, decide_eq_true_eq] at hp
    simp only [Option.map_some', Option.some.injEq]
    rw [if_pos ⟨hp.1, hp.2⟩]

/-- Witness for C6 at a concrete input: a demo brick at the top edge, inert
from below, absorbs a hit from the bottom side without any registry change. -/
theorem c6_inert_absorption_witness :
    (inertDemoBrick.inertFromSide = some Side.bottom) ∧
      brickKeys (wallInertDemo.processWallImpact inertDemoBrick Side.bottom
        fun _ => none) = brickKeys wallInertDemo := by
  constructor
  · decide
  · exact (c6_inert_absorption wallInertDemo inertDemoBrick Side.bottom
      (fun _ => none) (by decide)).1

/-- Counterexample for C9 as stated: resolving the non-inert impact on the only brick of
`wallLoneMid` plants a repair brick at column -1, outside the span [0, 3],
yet `masterMinCol` stays 0: the span is not redefined to include the
out-of-span column. -/
theorem c9_counterexample :
    ((wallLoneMid.processWallImpact (mkBrick 5 0) Side.top fun _ => none).hasKey
        5 (-1) = true) ∧
      (wallLoneMid.processWallImpact (mkBrick 5 0) Side.top fun _ => none).masterMinCol = 0 ∧
      wallLoneMid.masterMinCol = 0 := by
  refine ⟨by decide, ?_, rfl⟩
  exact (processWallImpact_bounds wallLoneMid (mkBrick 5 0) Side.top fun _ => none).1

/-- Claim C9 as amended: during gameplay the boundary columns never change at all:
impact resolution and the draining of the pending queue preserve
`masterMinCol` and `masterMaxCol` exactly (so they never shrink), and a
repair planted outside the span does not widen it. -/
theorem c9_amended_bounds_frozen (w : Wall) (hit : Brick) (s : Side)
    (ρ : Nat → Option BrickType) (ρs : Nat → Nat → Option BrickType) :
    ((w.processWallImpact hit s ρ).masterMinCol = w.masterMinCol ∧
      (w.processWallImpact hit s ρ).masterMaxCol = w.masterMaxCol) ∧
      ((w.resolvePendingImpacts ρs).masterMinCol = w.masterMinCol ∧
        (w.resolvePendingImpacts ρs).masterMaxCol = w.masterMaxCol) := by
  refine ⟨processWallImpact_bounds w hit s ρ, ?_⟩
  rw [Wall.resolvePendingImpacts]
  exact ⟨(resolveAux_bounds ρs w.pendingImpacts 0 w).1,
    (resolveAux_bounds ρs w.pendingImpacts 0 w).2⟩

/-- Counterexample for C1 as stated: resolving a non-inert impact on the already-severed
wall `wallLoneMid` ends with the analyzer still reporting false, and this
iteration of the engine has no anomaly-report channel at all (the
structural-integrity console report exists only in earlier iterations), so
the resolution ends with connectivity false and nothing reported. -/
theorem c1_counterexample :
    ((mkBrick 5 0).inertFromSide ≠ some Side.top) ∧
      ((wallLoneMid.processWallImpact (mkBrick 5 0) Side.top
        fun _ => none).analyzeTopology).2 = false := by
  constructor
  · decide
  · decide

/-- Claim C1 as amended: after a non-inert impact resolution, either the analyzer
reports the wall connected, or the repair search was exhausted with every
prioritized candidate permanently planted; no report is emitted either way,
so a resolution may end silently with connectivity false. -/
theorem c1_amended_connected_or_exhausted (w : Wall) (hit : Brick) (s : Side)
    (ρ : Nat → Option BrickType) (hin : hit.inertFromSide ≠ some s) :
    (((w.processWallImpact hit s ρ).analyzeTopology).2 = true) ∨
      (∀ p ∈ repairCandidates hit.row hit.col (sideDelta s),
        p ∈ brickKeys (w.processWallImpact hit s ρ)) :=
  processWallImpact_connected_or_planted w hit s ρ hin

/-- Witness for C1 (amended) at a concrete input. -/
theorem c1_amended_connected_or_exhausted_witness :
    ((mkBrick 5 0).inertFromSide ≠ some Side.top) ∧
      ((((wallLoneMid.processWallImpact (mkBrick 5 0) Side.top
          fun _ => none).analyzeTopology).2 = true) ∨
        (∀ p ∈ repairCandidates (mkBrick 5 0).row (mkBrick 5 0).col (sideDelta Side.top),
          p ∈ brickKeys (wallLoneMid.processWallImpact (mkBrick 5 0) Side.top
            fun _ => none))) :=
  ⟨by decide,
   c1_amended_connected_or_exhausted wallLoneMid (mkBrick 5 0) Side.top
     (fun _ => none) (by decide)⟩

theorem repairCandidates_delta_one_even {r c : Int} (hr : r.natAbs % 2 = 0) :
    repairCandidates r c 1 = [(r + 1, c), (r + 1, c - 1), (r, c - 1), (r, c + 1)] := by
  have hne1 : ¬((r : Int) = r + 1) := by omega
  have hne2 : ¬((r - 1 : Int) = r + 1) := by omega
  simp [repairCandidates, getMasonryNeighbors, hr, hne1, hne2]

theorem repairCandidates_delta_neg_even {r c : Int} (hr : r.natAbs % 2 = 0) :
    repairCandidates r c (-1) = [(r - 1, c), (r - 1, c - 1), (r, c - 1), (r, c + 1)] := by
  have hne1 : ¬((r : Int) = r + -1) := by omega
  have hne2 : ¬((r + 1 : Int) = r + -1) := by omega
  have he : ((r - 1 : Int) = r + -1) := by omega
  simp [repairCandidates, getMasonryNeighbors, hr, hne1, hne2, he]

theorem repairCandidates_delta_one_odd {r c : Int} (hr : r.natAbs % 2 = 1) :
    repairCandidates r c 1 = [(r + 1, c), (r + 1, c + 1), (r, c - 1), (r, c + 1)] := by
  have hne1 : ¬((r : Int) = r + 1) := by omega
  have hne2 : ¬((r - 1 : Int) = r + 1) := by omega
  simp [repairCandidates, getMasonryNeighbors, hr, hne1, hne2]

theorem repairCandidates_delta_neg_odd {r c : Int} (hr : r.natAbs % 2 = 1) :
    repairCandidates r c (-1) = [(r - 1, c), (r - 1, c + 1), (r, c - 1), (r, c + 1)] := by
  have hne1 : ¬((r : Int) = r + -1) := by omega
  have hne2 : ¬((r + 1 : Int) = r + -1) := by omega
  have he : ((r - 1 : Int) = r + -1) := by omega
  simp [repairCandidates, getMasonryNeighbors, hr, hne1, hne2, he]

theorem processWallImpact_repair_individual (w : Wall) (hit : Brick) (s : Side)
    (ρ : Nat → Option BrickType) (hin : hit.inertFromSide ≠ some s)
    (hdis : ((({ w with lastHitBrickType := hit.type }).deleteKey
      hit.row hit.col).analyzeTopology).2 = false)
    (hsucc : (individualPass ρ (repairCandidates hit.row hit.col (sideDelta s))
      ((({ w with lastHitBrickType := hit.type }).deleteKey
        hit.row hit.col).analyzeTopology).1 0).2.1 = true) :
    brickKeys (w.processWallImpact hit s ρ) =
      brickKeys (individualPass ρ (repairCandidates hit.row hit.col (sideDelta s))
        ((({ w with lastHitBrickType := hit.type }).deleteKey
          hit.row hit.col).analyzeTopology).1 0).1 := by
  unfold Wall.processWallImpact
  rw [if_neg hin]
  have hd2 : ¬(((({ w with lastHitBrickType := hit.type }).deleteKey
      hit.row hit.col).analyzeTopology).2 = true) := by
    rw [hdis]
    simp
  dsimp only
  rw [if_neg hd2, if_pos hsucc, brickKeys_updateInert]

theorem processWallImpact_repair_collective (w : Wall) (hit : Brick) (s : Side)
    (ρ : Nat → Option BrickType) (hin : hit.inertFromSide ≠ some s)
    (hdis : ((({ w with lastHitBrickType := hit.type }).deleteKey
      hit.row hit.col).analyzeTopology).2 = false)
    (hfail : (individualPass ρ (repairCandidates hit.row hit.col (sideDelta s))
      ((({ w with lastHitBrickType := hit.type }).deleteKey
        hit.row hit.col).analyzeTopology).1 0).2.1 = false) :
    brickKeys (w.processWallImpact hit s ρ) =
      brickKeys (collectivePass ρ (repairCandidates hit.row hit.col (sideDelta s))
        (individualPass ρ (repairCandidates hit.row hit.col (sideDelta s))
          ((({ w with lastHitBrickType := hit.type }).deleteKey
            hit.row hit.col).analyzeTopology).1 0).1
        (individualPass ρ (repairCandidates hit.row hit.col (sideDelta s))
          ((({ w with lastHitBrickType := hit.type }).deleteKey
            hit.row hit.col).analyzeTopology).1 0).2.2).1 := by
  unfold Wall.processWallImpact
  rw [if_neg hin]
  have hd2 : ¬(((({ w with lastHitBrickType := hit.type }).deleteKey
      hit.row hit.col).analyzeTopology).2 = true) := by
    rw [hdis]
    simp
  have hf2 : ¬((individualPass ρ (repairCandidates hit.row hit.col (sideDelta s))
      ((({ w with lastHitBrickType := hit.type }).deleteKey
        hit.row hit.col).analyzeTopology).1 0).2.1 = true) := by
    rw [hfail]
    simp
  dsimp only
  rw [if_neg hd2, if_neg hf2, brickKeys_updateInert]

/-- Claim C3: the repair search tries candidates in the fixed priority order (the
push-direction row neighbors of the removed coordinate in source order,
then same-row left, then same-row right); the individual trial pass removes
every failed tentative brick (an unsuccessful pass leaves the coordinate
list exactly as it found it, a successful one adds exactly its one winning
candidate), and the collective fallback determines the outcome only when
the individual pass exhausted all candidates without restoring
connectivity. -/
theorem c3_repair_search_order :
    (∀ r c : Int,
      (r.natAbs % 2 = 0 →
        repairCandidates r c 1 = [(r + 1, c), (r + 1, c - 1), (r, c - 1), (r, c + 1)] ∧
        repairCandidates r c (-1) = [(r - 1, c), (r - 1, c - 1), (r, c - 1), (r, c + 1)]) ∧
      (r.natAbs % 2 = 1 →
        repairCandidates r c 1 = [(r + 1, c), (r + 1, c + 1), (r, c - 1), (r, c + 1)] ∧
        repairCandidates r c (-1) = [(r - 1, c), (r - 1, c + 1), (r, c - 1), (r, c + 1)])) ∧
    (∀ (ρ : Nat → Option BrickType) (cands : List Coord) (w : Wall) (k : Nat),
      (individualPass ρ cands w k).2.1 = false →
      brickKeys (individualPass ρ cands w k).1 = brickKeys w) ∧
    (∀ (ρ : Nat → Option BrickType) (cands : List Coord) (w : Wall) (k : Nat),
      (individualPass ρ cands w k).2.1 = true →
      ∃ p ∈ cands, p ∉ brickKeys w ∧
        brickKeys (individualPass ρ cands w k).1 = brickKeys w ++ [p]) ∧
    (∀ (w : Wall) (hit : Brick) (s : Side) (ρ : Nat → Option BrickType),
      hit.inertFromSide ≠ some s →
      ((({ w with lastHitBrickType := hit.type }).deleteKey
        hit.row hit.col).analyzeTopology).2 = false →
      (((individualPass ρ (repairCandidates hit.row hit.col (sideDelta s))
          ((({ w with lastHitBrickType := hit.type }).deleteKey
            hit.row hit.col).analyzeTopology).1 0).2.1 = true →
        brickKeys (w.processWallImpact hit s ρ) =
          brickKeys (individualPass ρ (repairCandidates hit.row hit.col (sideDelta s))
            ((({ w with lastHitBrickType := hit.type }).deleteKey
              hit.row hit.col).analyzeTopology).1 0).1) ∧
       ((individualPass ρ (repairCandidates hit.row hit.col (sideDelta s))
          ((({ w with lastHitBrickType := hit.type }).deleteKey
            hit.row hit.col).analyzeTopology).1 0).2.1 = false →
        brickKeys (w.processWallImpact hit s ρ) =
          brickKeys (collectivePass ρ (repairCandidates hit.row hit.col (sideDelta s))
            (individualPass ρ (repairCandidates hit.row hit.col (sideDelta s))
              ((({ w with lastHitBrickType := hit.type }).deleteKey
                hit.row hit.col).analyzeTopology).1 0).1
            (individualPass ρ (repairCandidates hit.row hit.col (sideDelta s))
              ((({ w with lastHitBrickType := hit.type }).deleteKey
                hit.row hit.col).analyzeTopology).1 0).2.2).1))) := by
  refine ⟨?_, ?_, ?_, ?_⟩
  · intro r c
    exact ⟨fun hr => ⟨repairCandidates_delta_one_even hr, repairCandidates_delta_neg_even hr⟩,
      fun hr => ⟨repairCandidates_delta_one_odd hr, repairCandidates_delta_neg_odd hr⟩⟩
  · intro ρ cands w k h
    exact individualPass_fail_keys ρ cands w k h
  · intro ρ cands w k h
    exact individualPass_true_spec ρ cands w k h
  · intro w hit s ρ hin hdis
    exact ⟨fun hsucc => processWallImpact_repair_individual w hit s ρ hin hdis hsucc,
      fun hfail => processWallImpact_repair_collective w hit s ρ hin hdis hfail⟩

/-- Witness for C3 at concrete inputs: the explicit candidate order for an
even row, and the individual-pass-success dispatch on `wallNeck`. -/
theorem c3_repair_search_order_witness :
    (repairCandidates 6 1 1 = [(7, 1), (7, 0), (6, 0), (6, 2)]) ∧
      brickKeys (wallNeck.processWallImpact (mkBrick 6 1) Side.top fun _ => none) =
        brickKeys (individualPass (fun _ => none)
          (repairCandidates (mkBrick 6 1).row (mkBrick 6 1).col (sideDelta Side.top))
          ((({ wallNeck with lastHitBrickType := (mkBrick 6 1).type }).deleteKey
            (mkBrick 6 1).row (mkBrick 6 1).col).analyzeTopology).1 0).1 := by
  constructor
  · exact ((c3_repair_search_order.1 6 1).1 (by decide)).1
  · exact ((c3_repair_search_order.2.2.2 wallNeck (mkBrick 6 1) Side.top (fun _ => none)
      (by decide) (by decide)).1 (by decide))

/-- Claim C4: within one tick, staging the same coordinate twice keeps only the
most recent side while key uniqueness is preserved (so each staged
coordinate is drained at most once); draining processes entries
sequentially in insertion order, treats a staged coordinate whose brick is
absent as a no-op rather than an error, and leaves the pending queue empty
when it returns. -/
theorem c4_pending_queue :
    (∀ (l : List (Coord × Side)) (key : Coord) (s1 s2 : Side),
      lookupPending (setPending (setPending l key s1) key s2) key = some s2) ∧
    (∀ (l : List (Coord × Side)) (key : Coord) (s : Side),
      (l.map Prod.fst).Nodup → ((setPending l key s).map Prod.fst).Nodup) ∧
    (∀ (w : Wall) (ρs : Nat → Nat → Option BrickType),
      (w.resolvePendingImpacts ρs).pendingImpacts = []) ∧
    (∀ (w : Wall) (ρs : Nat → Nat → Option BrickType),
      (∀ e ∈ w.pendingImpacts, w.getBrick e.1.1 e.1.2 = none) →
      (w.resolvePendingImpacts ρs).bricks = w.bricks) ∧
    (∀ (ρs : Nat → Nat → Option BrickType) (l1 l2 : List (Coord × Side)) (i : Nat) (w : Wall),
      resolveAux ρs (l1 ++ l2) i w =
        resolveAux ρs l2 (i + l1.length) (resolveAux ρs l1 i w)) := by
  refine ⟨?_, ?_, ?_, ?_, ?_⟩
  · intro l key s1 s2
    exact lookup_setPending_self (setPending l key s1) key s2
  · intro l key s h
    exact setPending_fst_nodup h
  · intro w ρs
    rfl
  · intro w ρs h
    show (resolveAux ρs w.pendingImpacts 0 w).bricks = w.bricks
    rw [resolveAux_absent ρs w.pendingImpacts 0 w h]
  · intro ρs l1 l2 i w
    exact resolveAux_append ρs l1 l2 i w

/-- Witness for C4 at concrete inputs: a stale staged coordinate is a
no-op, and staging preserves key uniqueness on a concrete queue. -/
theorem c4_pending_queue_witness :
    ((∀ e ∈ wallStalePending.pendingImpacts,
        wallStalePending.getBrick e.1.1 e.1.2 = none) ∧
      (wallStalePending.resolvePendingImpacts fun _ _ => none).bricks =
        wallStalePending.bricks) ∧
      ((([] : List (Coord × Side)).map Prod.fst).Nodup ∧
        ((setPending [] ((0 : Int), (0 : Int)) Side.top).map Prod.fst).Nodup) := by
  refine ⟨⟨by decide, ?_⟩, by decide, ?_⟩
  · exact c4_pending_queue.2.2.2.1 wallStalePending (fun _ _ => none) (by decide)
  · exact c4_pending_queue.2.1 [] ((0 : Int), (0 : Int)) Side.top (by decide)

theorem pickBest_eq_none : ∀ l : List Contact, pickBest l = none ↔ l = [] := by
  intro l
  cases l with
  | nil => simp [pickBest]
  | cons a rest =>
    simp only [pickBest]
    cases hr : pickBest rest with
    | none => simp
    | some d =>
      by_cases hlt : d.pen < a.pen
      · simp [hlt]
      · simp [hlt]

theorem pickBest_first_min :
    ∀ (l : List Contact) (c : Contact), pickBest l = some c →
      ∃ l1 l2, l = l1 ++ c :: l2 ∧ (∀ x ∈ l1, c.pen < x.pen) ∧
        (∀ x ∈ l, c.pen ≤ x.pen) := by
  intro l
  induction l with
  | nil => intro c h; simp [pickBest] at h
  | cons a rest ih =>
    intro c h
    simp only [pickBest] at h
    cases hr : pickBest rest with
    | none =>
      rw [hr] at h
      have ha : a = c := by
        simpa using h
      subst ha
      have hrest : rest = [] := (pickBest_eq_none rest).1 hr
      subst hrest
      exact ⟨[], [], rfl, by simp, by simp⟩
    | some d =>
      rw [hr] at h
      dsimp only at h
      by_cases hlt : d.pen < a.pen
      · rw [if_pos hlt] at h
        have hd : d = c := by
          simpa using h
        subst hd
        obtain ⟨l1, l2, heq, hless, hmin⟩ := ih d hr
        refine ⟨a :: l1, l2, ?_, ?_, ?_⟩
        · rw [heq]
          rfl
        · intro x hx
          rcases List.mem_cons.1 hx with rfl | hx2
          · exact hlt
          · exact hless x hx2
        · intro x hx
          rcases List.mem_cons.1 hx with rfl | hx2
          · exact le_of_lt hlt
          · exact hmin x hx2
      · rw [if_neg hlt] at h
        have ha : a = c := by
          simpa using h
        subst ha
        obtain ⟨l1, l2, heq, hless, hmin⟩ := ih d hr
        refine ⟨[], rest, rfl, by simp, ?_⟩
        intro x hx
        rcases List.mem_cons.1 hx with rfl | hx2
        · exact le_refl _
        · exact le_trans (le_of_not_lt hlt) (hmin x hx2)

theorem scanCoords_wallTwo : scanCoords wallTwo ballProbe =
    [(-1, -1), (-1, 0), (-1, 1), (0, 0), (0, 1), (0, 2), (1, -1), (1, 0), (1, 1)] := by
  norm_num [scanCoords, jsRound, wallTwo, ballProbe, brickHeight]

theorem considerAt_brickNear : considerAt wallTwo ballProbe (0, 0) = some contactNear := by
  have hg : wallTwo.getBrick 0 0 = some brickNear := by decide
  rw [considerAt]
  simp only [hg]
  rw [considerBrick]
  norm_num [canvasX, canvasY, brickNear, mkBrick, ballProbe, contactNear]
  decide

theorem considerAt_brickFar : considerAt wallTwo ballProbe (0, 1) = some contactFar := by
  have hg : wallTwo.getBrick 0 1 = some brickFar := by decide
  rw [considerAt]
  simp only [hg]
  rw [considerBrick]
  norm_num [canvasX, canvasY, brickFar, mkBrick, ballProbe, contactFar]

theorem scanContacts_wallTwo :
    scanContacts wallTwo ballProbe = [contactNear, contactFar] := by
  rw [scanContacts, scanCoords_wallTwo]
  simp only [List.filterMap]
  rw [considerAt_brickNear, considerAt_brickFar]
  rfl

theorem pickBest_wallTwo :
    pickBest (scanContacts wallTwo ballProbe) = some contactFar := by
  rw [scanContacts_wallTwo]
  have hlt : contactFar.pen < contactNear.pen := by norm_num [contactNear, contactFar]
  simp [pickBest, hlt]

/-- Counterexample for C5 as stated: against the two-brick wall, the ball `ballProbe` has two
qualifying contacts, with the contact on (0, 0) strictly deeper (penetration
14 versus 4); yet `checkCollision` stages the shallower contact on (0, 1):
the deepest-penetration candidate does not win. -/
theorem c5_counterexample :
    considerAt wallTwo ballProbe (0, 0) = some contactNear ∧
      considerAt wallTwo ballProbe (0, 1) = some contactFar ∧
      contactFar.pen < contactNear.pen ∧
      (wallTwo.checkCollision ballProbe).1.pendingImpacts = [((0, 1), Side.top)] := by
  refine ⟨considerAt_brickNear, considerAt_brickFar, by norm_num [contactNear, contactFar], ?_⟩
  unfold Wall.checkCollision
  rw [pickBest_wallTwo]
  rfl

/-- Claim C5 as amended: among the qualifying contacts of the 3x3 scan window,
`checkCollision` selects the contact with the SMALLEST minimum-axis overlap
(the shallowest penetration), ties broken by the scan order (row-major,
near-to-far, left-to-right: the earliest scanned contact wins), stages
exactly that contact, and is a pure function of the ball state and the
registry. -/
theorem c5_amended_shallowest_first (w : Wall) (ball : Ball) (c : Contact)
    (h : pickBest (scanContacts w ball) = some c) :
    ((w.checkCollision ball).1.pendingImpacts =
        setPending w.pendingImpacts (c.brick.row, c.brick.col) ball.side) ∧
      c ∈ scanContacts w ball ∧
      (∀ d ∈ scanContacts w ball, c.pen ≤ d.pen) ∧
      (∃ l1 l2, scanContacts w ball = l1 ++ c :: l2 ∧ ∀ d ∈ l1, c.pen < d.pen) := by
  obtain ⟨l1, l2, heq, hless, hmin⟩ := pickBest_first_min (scanContacts w ball) c h
  refine ⟨?_, ?_, hmin, l1, l2, heq, hless⟩
  · unfold Wall.checkCollision
    rw [h]
  · rw [heq]
    exact List.mem_append.2 (Or.inr (by simp))

/-- Witness for C5 (amended) at the concrete two-brick wall. -/
theorem c5_amended_shallowest_first_witness :
    pickBest (scanContacts wallTwo ballProbe) = some contactFar ∧
      ((wallTwo.checkCollision ballProbe).1.pendingImpacts =
        setPending wallTwo.pendingImpacts (contactFar.brick.row, contactFar.brick.col)
          ballProbe.side) :=
  ⟨pickBest_wallTwo,
   (c5_amended_shallowest_first wallTwo ballProbe contactFar pickBest_wallTwo).1⟩

end Bricks
